import Mathlib

/-!
Formal model of the decoding engine in `anlg/run_generation.py` and of the
evaluation aggregator in `anlg/evaluation/eval.py`.

Modelling conventions:
* 1-D torch tensors of scores become `List ℚ`; token-id tensors become
  `List ℕ`; a batched tensor of shape `(N, L)` becomes `List (List ℕ)`.
* `F.softmax` computes `exp x_i / Σ_j exp x_j`.  The exponential map of the
  numeric library is kept abstract as a parameter `e : ℚ → ℚ`; every theorem
  that needs a property of it assumes only `∀ x, 0 < e x`, which the real
  exponential satisfies.
* The scoring model (`model(**inputs)`, an external collaborator) is an
  abstract function from the step input to the logits tensor `outputs[0]`
  of shape `(batch, positions, vocab)`.
* `torch.multinomial` (the only source of randomness) is an abstract oracle
  taking the step number, the probability vector and the number of draws.
* Fallible torch operations (`repeat` with a negative count, `torch.cat`
  with mismatched shapes) return `Option`; `none` is a raised RuntimeError.
* The in-place tensor writes of `top_k_top_p_filtering` are modelled twice:
  a pure value-level function, and an explicit store-passing version
  (`top_k_top_p_filtering_inplace`) in which tensors live in a store
  `List (List ℚ)` addressed by an index, mirroring object identity.
-/

/-- torch sort of a 1-D tensor in descending order, by indices:
the `sorted_indices` half of `torch.sort(logits, descending=True)`. -/
def sortedIdxOf (l : List ℚ) : List ℕ :=
  List.insertionSort (fun i j => l.getD j 0 ≤ l.getD i 0) (List.range l.length)

/-- The `sorted_logits` half of `torch.sort(logits, descending=True)`. -/
def sortedValsOf (l : List ℚ) : List ℚ :=
  (sortedIdxOf l).map fun i => l.getD i 0

/-- `F.softmax(l, dim=-1)` with the library exponential abstracted as `e`. -/
def softmaxE (e : ℚ → ℚ) (l : List ℚ) : List ℚ :=
  l.map fun x => e x / (l.map e).sum

/-- `torch.cumsum(l, dim=-1)`: the list of partial sums. -/
def cumsum (l : List ℚ) : List ℚ :=
  (List.range l.length).map fun i => (l.take (i + 1)).sum

/-- `torch.topk(logits, k)[0][..., -1]`: the k-th largest value of `l`
(counted with multiplicity), for `1 ≤ k ≤ l.length`. -/
def kthLargestVal (l : List ℚ) (k : ℕ) : ℚ :=
  (sortedValsOf l).getD (k - 1) 0

/-- Lines 110-112 of `run_generation.py`:
`indices_to_remove = logits < torch.topk(logits, top_k)[0][..., -1, None];`
`logits[indices_to_remove] = filter_value`. -/
def topKMask (l : List ℚ) (k : ℕ) (fv : ℚ) : List ℚ :=
  l.map fun x => if x < kthLargestVal l k then fv else x

/-- `cumulative_probs` of line 116, as a function of the logits. -/
def cumProbsOf (e : ℚ → ℚ) (l : List ℚ) : List ℚ :=
  cumsum (softmaxE e (sortedValsOf l))

/-- Lines 121-122: shift the removal mask one position to the right and
force the first sorted entry to be kept
(`sorted_indices_to_remove[..., 1:] = sorted_indices_to_remove[..., :-1];`
`sorted_indices_to_remove[..., 0] = 0`). -/
def shiftMask (m : List Bool) : List Bool :=
  match m with
  | [] => []
  | _ :: _ => false :: m.dropLast

/-- The shifted `sorted_indices_to_remove` mask of lines 119-122. -/
def removeMaskOf (e : ℚ → ℚ) (l : List ℚ) (p : ℚ) : List Bool :=
  shiftMask ((cumProbsOf e l).map fun c => decide (p < c))

/-- Line 124: `indices_to_remove = sorted_indices[sorted_indices_to_remove]`. -/
def removeIdxOf (e : ℚ → ℚ) (l : List ℚ) (p : ℚ) : List ℕ :=
  ((sortedIdxOf l).zip (removeMaskOf e l p)).filterMap
    fun ib => if ib.2 then some ib.1 else none

/-- Lines 114-125 of `run_generation.py`: the nucleus (top-p) stage,
ending with the masked write `logits[indices_to_remove] = filter_value`. -/
def topPPass (e : ℚ → ℚ) (l : List ℚ) (p fv : ℚ) : List ℚ :=
  (List.range l.length).map fun i => if i ∈ removeIdxOf e l p then fv else l.getD i 0

/-- `top_k_top_p_filtering(logits, top_k, top_p, filter_value)`
(lines 98-126), as a pure function on the tensor value.  The clamp
`top_k = min(top_k, logits.size(-1))` and the two guarded stages are as in
the source; the top-p stage reads the logits already mutated by the top-k
stage. -/
def top_k_top_p_filtering (e : ℚ → ℚ) (logits : List ℚ) (top_k : ℕ) (top_p fv : ℚ) :
    List ℚ :=
  let k := min top_k logits.length
  let l1 := if 0 < k then topKMask logits k fv else logits
  if 0 < top_p then topPPass e l1 top_p fv else l1

/-- The same function in store-passing style: tensors live in a store
`σ : List (List ℚ)` and are addressed by an index `t`.  Each of the two
guarded masked writes of the source mutates the caller's tensor in place,
and the input reference itself is returned (`return logits`). -/
def top_k_top_p_filtering_inplace (e : ℚ → ℚ) (σ : List (List ℚ)) (t : ℕ)
    (top_k : ℕ) (top_p fv : ℚ) : List (List ℚ) × ℕ :=
  let logits := σ.getD t []
  let k := min top_k logits.length
  let σ1 := if 0 < k then σ.set t (topKMask logits k fv) else σ
  let l1 := σ1.getD t []
  let σ2 := if 0 < top_p then σ1.set t (topPPass e l1 top_p fv) else σ1
  (σ2, t)

/-- `tensor.unsqueeze(0).repeat(n, 1, ...)`: replicate along a fresh leading
dimension.  `torch.repeat` raises for a negative count and accepts `0`
(yielding an empty leading dimension). -/
def torchRepeat {α : Type} (n : ℤ) (x : α) : Option (List α) :=
  if n < 0 then none else some (List.replicate n.toNat x)

/-- `torch.cat((a, b), dim=1)` on two 2-D tensors represented as lists of
rows: raises unless the leading (row) dimensions agree. -/
def torchCatDim1 {α : Type} (a b : List (List α)) : Option (List (List α)) :=
  if a.length = b.length then some ((a.zip b).map fun rs => rs.1 ++ rs.2) else none

/-- A row of length `m` that is all zeros except a `1` in the last cell:
the result of `zeros(m)` followed by `row[-1] = 1.0`. -/
def lastOneRow (m : ℕ) : List ℚ :=
  List.replicate (m - 1) 0 ++ [1]

/-- The keyword-argument dictionary `inputs` passed to the scoring model at
one step of `sample_sequence` (lines 155-167): absent keys are `none`. -/
structure StepInput where
  input_ids : List (List ℕ)
  comet_input : Option (List (List (List ℕ))) := none
  comet_mask : Option (List (List (List ℚ))) := none
  perm_mask : Option (List (List (List ℚ))) := none
  target_mapping : Option (List (List (List ℚ))) := none
deriving DecidableEq

/-- Lines 155-167 of `sample_sequence`: build the `inputs` dict for one step.
The causal dict carries the (replicated) comet fields when `comet_input`
was supplied; the `is_xlnet` branch re-assigns `inputs` to a fresh dict of
`input_ids`, `perm_mask` and `target_mapping` built from
`torch.cat((generated, zeros((1, 1))), dim=1)`. -/
def buildStepInput (is_xlnet : Bool)
    (comet : Option (List (List (List ℕ)) × List (List (List ℚ))))
    (generated : List (List ℕ)) : Option StepInput :=
  if is_xlnet then
    (torchCatDim1 generated [[0]]).map fun input_ids =>
      let m := (input_ids.getD 0 []).length
      { input_ids := input_ids,
        perm_mask := some [List.replicate m (lastOneRow m)],
        target_mapping := some [[lastOneRow m]] }
  else
    some (match comet with
      | none => { input_ids := generated }
      | some (ci, cm) =>
          { input_ids := generated, comet_input := some ci, comet_mask := some cm })

/-- The probability vector handed to `torch.multinomial` at one step
(lines 169-174): `outputs[0][0, -1, :]` — batch row 0, last position — is
divided by the temperature, filtered, and softmaxed. -/
def drawDist (e : ℚ → ℚ) (temperature : ℚ) (top_k : ℕ) (top_p fv : ℚ)
    (model : StepInput → List (List (List ℚ))) (inputs : StepInput) : List ℚ :=
  softmaxE e
    (top_k_top_p_filtering e
      ((((model inputs).getD 0 []).getLast?.getD []).map fun x => x / temperature)
      top_k top_p fv)

/-- Modelled from the spec's words (§4.4 step 5, for comparison with
`drawDist`): the distribution sample `j` would own, formed from batch row
`j` of the scoring model's output instead of row 0. -/
def perSampleDistSpec (e : ℚ → ℚ) (temperature : ℚ) (top_k : ℕ) (top_p fv : ℚ)
    (model : StepInput → List (List (List ℚ))) (inputs : StepInput) (j : ℕ) : List ℚ :=
  softmaxE e
    (top_k_top_p_filtering e
      ((((model inputs).getD j []).getLast?.getD []).map fun x => x / temperature)
      top_k top_p fv)

/-- One iteration of the generation loop (lines 154-175): build the step
input, invoke the scoring model, sample `num_samples` token ids from the
draw distribution, and extend `generated` by
`torch.cat((generated, next_token.unsqueeze(0)), dim=1)`. -/
def genStep (e : ℚ → ℚ) (mult : ℕ → List ℚ → ℕ → List ℕ)
    (model : StepInput → List (List (List ℚ))) (num_samples : ℤ)
    (temperature : ℚ) (top_k : ℕ) (top_p fv : ℚ) (is_xlnet : Bool)
    (comet : Option (List (List (List ℕ)) × List (List (List ℚ))))
    (step : ℕ) (generated : List (List ℕ)) : Option (List (List ℕ)) := do
  let inputs ← buildStepInput is_xlnet comet generated
  let next_token := mult step (drawDist e temperature top_k top_p fv model inputs)
    num_samples.toNat
  torchCatDim1 generated [next_token]

/-- `sample_sequence` (lines 129-176).  The context is replicated across the
sample dimension by `unsqueeze(0).repeat(num_samples, 1)`; when
`comet_input` is supplied both comet tensors are likewise replicated; then
the loop `for _ in range(length)` runs `genStep`.  `none` models a raised
RuntimeError. -/
def sample_sequence (e : ℚ → ℚ) (mult : ℕ → List ℚ → ℕ → List ℕ)
    (model : StepInput → List (List (List ℚ))) (length : ℕ) (context : List ℕ)
    (num_samples : ℤ) (temperature : ℚ) (top_k : ℕ) (top_p : ℚ) (is_xlnet : Bool)
    (fv : ℚ) (comet_input : Option (List (List ℕ)))
    (comet_mask : Option (List (List ℚ))) : Option (List (List ℕ)) := do
  let generated0 ← torchRepeat num_samples context
  let comet ← (match comet_input with
    | none => some none
    | some ci => do
        let ciR ← torchRepeat num_samples ci
        let cmR ← torchRepeat num_samples (comet_mask.getD [])
        some (some (ciR, cmR)))
  (List.range length).foldlM
    (fun g step =>
      genStep e mult model num_samples temperature top_k top_p fv is_xlnet comet step g)
    generated0

/-- The score-computation loop of `QGEvalCap.evaluate`
(`anlg/evaluation/eval.py`, lines 39-50): each scorer yields the
method-score pairs it contributes to `scores_dict`, or raises; there is no
exception handling around `scorer.compute_score`. -/
def computeScores :
    List (Except String (List (String × ℚ))) → Except String (List (String × ℚ))
  | [] => Except.ok []
  | r :: rest => r.bind fun s => (computeScores rest).map fun tailS => s ++ tailS

/-- `QGEvalCap.evaluate` (lines 24-55): run the scorer loop, then append one
line — the model key together with `scores_dict` — to the results file and
return.  The `.ok` payload is the written line. -/
def QGEvalCap_evaluate (model_key : String)
    (scorers : List (Except String (List (String × ℚ)))) :
    Except String (String × List (String × ℚ)) :=
  (computeScores scorers).map fun d => (model_key, d)

/-- The lines appended to the results file by one call to
`QGEvalCap.evaluate`: the write at lines 52-53 only executes when the
scorer loop finished without raising. -/
def resultsFileLines (model_key : String)
    (scorers : List (Except String (List (String × ℚ)))) :
    List (String × List (String × ℚ)) :=
  match QGEvalCap_evaluate model_key scorers with
  | Except.ok line => [line]
  | Except.error _ => []

/-- Concrete stand-in for the library exponential, used in witnesses:
constant 1 is positive everywhere. -/
def constOneExp : ℚ → ℚ := fun _ => 1

/-- Concrete multinomial oracle for witnesses: always draws token id 0. -/
def zeroDraws : ℕ → List ℚ → ℕ → List ℕ := fun _ _ n => List.replicate n 0

/-- Concrete scoring model for witnesses: one batch row, one position,
one-entry vocabulary. -/
def constModel1 : StepInput → List (List (List ℚ)) := fun _ => [[[1]]]

/-- Concrete scoring model whose batch row 0 and batch row 1 carry different
last-position logits. -/
def twoRowModel : StepInput → List (List (List ℚ)) := fun _ => [[[0]], [[0, 0]]]

/-- A scoring model that agrees with `twoRowModel` on batch row 0 but has no
second row. -/
def rowZeroModel : StepInput → List (List (List ℚ)) := fun _ => [[[0]]]

lemma getD_lt {α : Type} (l : List α) (d : α) {i : ℕ} (h : i < l.length) :
    l.getD i d = l[i] := by
  simp [List.getD_eq_getElem?_getD, List.getElem?_eq_getElem h]

lemma map_getD_range {α : Type} (l : List α) (d : α) :
    (List.range l.length).map (fun i => l.getD i d) = l := by
  apply List.ext_getElem (by simp)
  intro i h1 h2
  simp only [List.getElem_map, List.getElem_range]
  exact getD_lt l d h2

lemma sortedIdxOf_perm (l : List ℚ) : List.Perm (sortedIdxOf l) (List.range l.length) :=
  List.perm_insertionSort _ _

lemma sortedIdxOf_length (l : List ℚ) : (sortedIdxOf l).length = l.length := by
  rw [(sortedIdxOf_perm l).length_eq, List.length_range]

lemma sortedIdxOf_nodup (l : List ℚ) : (sortedIdxOf l).Nodup :=
  ((sortedIdxOf_perm l).nodup_iff).2 (List.nodup_range _)

lemma mem_sortedIdxOf (l : List ℚ) {i : ℕ} : i ∈ sortedIdxOf l ↔ i < l.length := by
  rw [(sortedIdxOf_perm l).mem_iff, List.mem_range]

lemma sortedIdxOf_getD_lt (l : List ℚ) {r : ℕ} (hr : r < l.length) :
    (sortedIdxOf l).getD r 0 < l.length := by
  have hr' : r < (sortedIdxOf l).length := by rw [sortedIdxOf_length]; exact hr
  rw [getD_lt _ _ hr']
  exact (mem_sortedIdxOf l).1 (List.getElem_mem hr')

lemma sortedIdxOf_sorted (l : List ℚ) :
    (sortedIdxOf l).Sorted (fun i j => l.getD j 0 ≤ l.getD i 0) := by
  haveI : IsTotal ℕ (fun i j => l.getD j 0 ≤ l.getD i 0) := ⟨fun a b => le_total _ _⟩
  haveI : IsTrans ℕ (fun i j => l.getD j 0 ≤ l.getD i 0) :=
    ⟨fun _ _ _ hab hbc => le_trans hbc hab⟩
  exact List.sorted_insertionSort _ _

lemma sortedValsOf_length (l : List ℚ) : (sortedValsOf l).length = l.length := by
  simp [sortedValsOf, sortedIdxOf_length]

lemma sortedValsOf_perm (l : List ℚ) : List.Perm (sortedValsOf l) l := by
  have h1 : List.Perm (sortedValsOf l) ((List.range l.length).map fun i => l.getD i 0) :=
    (sortedIdxOf_perm l).map _
  rwa [map_getD_range] at h1

lemma sortedValsOf_sorted (l : List ℚ) :
    (sortedValsOf l).Sorted (fun a b : ℚ => b ≤ a) :=
  List.Pairwise.map _ (fun _ _ h => h) (sortedIdxOf_sorted l)

lemma sortedValsOf_getD (l : List ℚ) {r : ℕ} (hr : r < l.length) :
    (sortedValsOf l).getD r 0 = l.getD ((sortedIdxOf l).getD r 0) 0 := by
  have hr' : r < (sortedIdxOf l).length := by rw [sortedIdxOf_length]; exact hr
  have hrv : r < (sortedValsOf l).length := by rw [sortedValsOf_length]; exact hr
  rw [getD_lt _ _ hrv]
  simp only [sortedValsOf, List.getElem_map]
  congr 1
  exact (getD_lt _ _ hr').symm

lemma sorted_getD_le (l : List ℚ) (hs : l.Sorted (fun a b : ℚ => b ≤ a))
    {i j : ℕ} (hij : i ≤ j) (hj : j < l.length) : l.getD j 0 ≤ l.getD i 0 := by
  rcases eq_or_lt_of_le hij with rfl | h
  · exact le_rfl
  · have hi : i < l.length := lt_trans h hj
    have := hs.rel_get_of_lt (a := ⟨i, hi⟩) (b := ⟨j, hj⟩) h
    rw [getD_lt _ _ hj, getD_lt _ _ hi]
    simpa using this

lemma kthLargestVal_le_of_mem (l : List ℚ) {x : ℚ} (hx : x ∈ l) :
    kthLargestVal l l.length ≤ x := by
  have hmem : x ∈ sortedValsOf l := (sortedValsOf_perm l).mem_iff.2 hx
  obtain ⟨i, hi, rfl⟩ := List.getElem_of_mem hmem
  have hn : 0 < l.length := by
    rcases l with - | ⟨a, as⟩
    · simp at hx
    · simp
  have hlast : l.length - 1 < (sortedValsOf l).length := by
    rw [sortedValsOf_length]; omega
  have hii : i ≤ l.length - 1 := by
    have := hi; rw [sortedValsOf_length] at this; omega
  have := sorted_getD_le (sortedValsOf l) (sortedValsOf_sorted l) hii hlast
  rw [kthLargestVal]
  calc (sortedValsOf l).getD (l.length - 1) 0 ≤ (sortedValsOf l).getD i 0 := by
        have h2 : (l.length - 1 : ℕ) < (sortedValsOf l).length := hlast
        exact sorted_getD_le (sortedValsOf l) (sortedValsOf_sorted l) hii h2
    _ = (sortedValsOf l)[i] := getD_lt _ _ hi

/-- C6: for top_k > 0 the top-k stage replaces exactly the entries strictly
below the k-th largest score (k clamped to the vocabulary size) by the
filter value, keeps all ties with the threshold, and is a no-op when
top_k is at least the vocabulary size. -/
theorem topk_filter_char (e : ℚ → ℚ) (l : List ℚ) (top_k : ℕ) (fv : ℚ)
    (hk : 0 < top_k) :
    (∀ i, i < l.length →
        (top_k_top_p_filtering e l top_k 0 fv).getD i 0 =
          if l.getD i 0 < kthLargestVal l (min top_k l.length) then fv
          else l.getD i 0)
    ∧ (∀ i, i < l.length →
          kthLargestVal l (min top_k l.length) ≤ l.getD i 0 →
          (top_k_top_p_filtering e l top_k 0 fv).getD i 0 = l.getD i 0)
    ∧ (l.length ≤ top_k → top_k_top_p_filtering e l top_k 0 fv = l) := by
  have hout : top_k_top_p_filtering e l top_k 0 fv =
      if 0 < min top_k l.length then topKMask l (min top_k l.length) fv else l := by
    simp [top_k_top_p_filtering]
  have part1 : ∀ i, i < l.length →
      (top_k_top_p_filtering e l top_k 0 fv).getD i 0 =
        if l.getD i 0 < kthLargestVal l (min top_k l.length) then fv
        else l.getD i 0 := by
    intro i hi
    have hn : 0 < l.length := lt_of_le_of_lt (Nat.zero_le i) hi
    have hmin : 0 < min top_k l.length := lt_min hk hn
    rw [hout, if_pos hmin, topKMask]
    have him : i < (l.map fun x =>
        if x < kthLargestVal l (min top_k l.length) then fv else x).length := by
      simpa using hi
    rw [getD_lt _ _ him, List.getElem_map, getD_lt _ _ hi]
  refine ⟨part1, fun i hi hge => ?_, fun hlen => ?_⟩
  · rw [part1 i hi, if_neg (not_lt.2 hge)]
  · rcases Nat.eq_zero_or_pos l.length with hzero | hpos
    · rw [hout]
      simp [hzero]
    · have hmin : min top_k l.length = l.length := min_eq_right hlen
      rw [hout, hmin, if_pos hpos, topKMask]
      have : ∀ x ∈ l, (if x < kthLargestVal l l.length then fv else x) = x := by
        intro x hx
        rw [if_neg (not_lt.2 (kthLargestVal_le_of_mem l hx))]
      rw [List.map_congr_left this, List.map_id']

/-- Witness for `topk_filter_char` at e = const 1, l = [3, 7], top_k = 1,
fv = -5. -/
theorem topk_filter_char_witness :
    (0 : ℕ) < 1 ∧
      ((∀ i, i < ([3, 7] : List ℚ).length →
          (top_k_top_p_filtering (fun _ => 1) [3, 7] 1 0 (-5)).getD i 0 =
            if ([3, 7] : List ℚ).getD i 0 <
                kthLargestVal [3, 7] (min 1 ([3, 7] : List ℚ).length) then (-5)
            else ([3, 7] : List ℚ).getD i 0)
      ∧ (∀ i, i < ([3, 7] : List ℚ).length →
            kthLargestVal [3, 7] (min 1 ([3, 7] : List ℚ).length) ≤
              ([3, 7] : List ℚ).getD i 0 →
            (top_k_top_p_filtering (fun _ => 1) [3, 7] 1 0 (-5)).getD i 0 =
              ([3, 7] : List ℚ).getD i 0)
      ∧ (([3, 7] : List ℚ).length ≤ 1 →
            top_k_top_p_filtering (fun _ => 1) [3, 7] 1 0 (-5) = [3, 7])) :=
  ⟨Nat.one_pos, topk_filter_char (fun _ => 1) [3, 7] 1 (-5) Nat.one_pos⟩

lemma softmaxE_length (e : ℚ → ℚ) (l : List ℚ) : (softmaxE e l).length = l.length := by
  simp [softmaxE]

lemma softmaxE_nonneg (e : ℚ → ℚ) (he : ∀ x, 0 < e x) (l : List ℚ) :
    ∀ x ∈ softmaxE e l, 0 ≤ x := by
  intro x hx
  simp only [softmaxE, List.mem_map] at hx
  obtain ⟨a, ha, rfl⟩ := hx
  have hne : l.map e ≠ [] := fun h => (List.ne_nil_of_mem ha) (List.map_eq_nil_iff.1 h)
  have hsum : 0 < (l.map e).sum := by
    apply List.sum_pos _ _ hne
    intro y hy
    simp only [List.mem_map] at hy
    obtain ⟨b, _, rfl⟩ := hy
    exact he b
  exact le_of_lt (div_pos (he a) hsum)

lemma cumsum_length (l : List ℚ) : (cumsum l).length = l.length := by
  simp [cumsum]

lemma cumsum_getD (l : List ℚ) {i : ℕ} (hi : i < l.length) :
    (cumsum l).getD i 0 = (l.take (i + 1)).sum := by
  have hi' : i < (cumsum l).length := by rw [cumsum_length]; exact hi
  rw [getD_lt _ _ hi']
  simp [cumsum]

lemma sum_take_mono (l : List ℚ) (h : ∀ x ∈ l, 0 ≤ x) {i j : ℕ} (hij : i ≤ j) :
    (l.take i).sum ≤ (l.take j).sum := by
  have hsplit : l.take j = l.take i ++ (l.drop i).take (j - i) := by
    rw [← List.take_add]
    congr 1
    omega
  rw [hsplit, List.sum_append]
  have h2 : 0 ≤ ((l.drop i).take (j - i)).sum :=
    List.sum_nonneg fun x hx =>
      h x (List.drop_subset _ _ (List.take_subset _ _ hx))
  linarith

lemma cumsum_mono (l : List ℚ) (h : ∀ x ∈ l, 0 ≤ x) {i j : ℕ} (hij : i ≤ j)
    (hj : j < l.length) : (cumsum l).getD i 0 ≤ (cumsum l).getD j 0 := by
  rw [cumsum_getD l (lt_of_le_of_lt hij hj), cumsum_getD l hj]
  exact sum_take_mono l h (by omega)

lemma shiftMask_length (m : List Bool) : (shiftMask m).length = m.length := by
  cases m with
  | nil => rfl
  | cons a as => simp [shiftMask]

lemma shiftMask_getD_zero (m : List Bool) : (shiftMask m).getD 0 false = false := by
  cases m <;> simp [shiftMask]

lemma shiftMask_getD_succ (m : List Bool) {r : ℕ} (hr : r + 1 < m.length) :
    (shiftMask m).getD (r + 1) false = m.getD r false := by
  cases m with
  | nil => simp at hr
  | cons a as =>
    have h1 : r + 1 < (shiftMask (a :: as)).length := by
      rw [shiftMask_length]; exact hr
    have h2 : r < (a :: as).dropLast.length := by
      simp only [List.length_dropLast, List.length_cons]
      simp only [List.length_cons] at hr
      omega
    have h3 : r < (a :: as).length := by
      simp only [List.length_cons] at hr ⊢
      omega
    rw [getD_lt _ _ h1]
    simp only [shiftMask]
    rw [List.getElem_cons_succ, List.getElem_dropLast, getD_lt _ _ h3]

lemma cumProbsOf_length (e : ℚ → ℚ) (l : List ℚ) :
    (cumProbsOf e l).length = l.length := by
  simp [cumProbsOf, cumsum_length, softmaxE_length, sortedValsOf_length]

lemma removeMaskOf_length (e : ℚ → ℚ) (l : List ℚ) (p : ℚ) :
    (removeMaskOf e l p).length = l.length := by
  simp [removeMaskOf, shiftMask_length, cumProbsOf_length]

lemma removeMaskOf_getD_succ (e : ℚ → ℚ) (l : List ℚ) (p : ℚ) {r : ℕ}
    (hr : r + 1 < l.length) :
    (removeMaskOf e l p).getD (r + 1) false =
      decide (p < (cumProbsOf e l).getD r 0) := by
  have hlen : r + 1 < ((cumProbsOf e l).map fun c => decide (p < c)).length := by
    rw [List.length_map, cumProbsOf_length]; exact hr
  have hr' : r < (cumProbsOf e l).length := by rw [cumProbsOf_length]; omega
  rw [removeMaskOf, shiftMask_getD_succ _ hlen]
  rw [getD_lt _ _ (by rw [List.length_map]; exact hr'), List.getElem_map,
    getD_lt _ _ hr']

lemma removeMask_true_iff (e : ℚ → ℚ) (he : ∀ x, 0 < e x) (l : List ℚ) (p : ℚ)
    {r : ℕ} (hr : r < l.length) :
    (removeMaskOf e l p).getD r false = true ↔
      ¬ ∀ r', r' < r → (cumProbsOf e l).getD r' 0 ≤ p := by
  have hnn : ∀ x ∈ softmaxE e (sortedValsOf l), 0 ≤ x := softmaxE_nonneg e he _
  cases r with
  | zero =>
    rw [removeMaskOf, shiftMask_getD_zero]
    simp
  | succ n =>
    rw [removeMaskOf_getD_succ e l p hr]
    simp only [decide_eq_true_eq]
    constructor
    · intro hlt hall
      exact absurd (hall n (Nat.lt_succ_self n)) (not_le.2 hlt)
    · intro hnall
      push_neg at hnall
      obtain ⟨r', hr', hgt⟩ := hnall
      have hr'n : r' ≤ n := by omega
      have hnlen : n < (softmaxE e (sortedValsOf l)).length := by
        rw [softmaxE_length, sortedValsOf_length]; omega
      have hmono : (cumProbsOf e l).getD r' 0 ≤ (cumProbsOf e l).getD n 0 :=
        cumsum_mono _ hnn hr'n hnlen
      exact lt_of_lt_of_le hgt hmono

lemma mem_removeIdxOf (e : ℚ → ℚ) (l : List ℚ) (p : ℚ) {j : ℕ} :
    j ∈ removeIdxOf e l p ↔
      ∃ r, ∃ _ : r < l.length,
        (sortedIdxOf l).getD r 0 = j ∧ (removeMaskOf e l p).getD r false = true := by
  have hsl : (sortedIdxOf l).length = l.length := sortedIdxOf_length l
  have hml : (removeMaskOf e l p).length = l.length := removeMaskOf_length e l p
  have hzl : ((sortedIdxOf l).zip (removeMaskOf e l p)).length = l.length := by
    rw [List.length_zip, hsl, hml, min_self]
  rw [removeIdxOf, List.mem_filterMap]
  constructor
  · rintro ⟨ib, hmem, hif⟩
    obtain ⟨r, hrz, heq⟩ := List.getElem_of_mem hmem
    have hr : r < l.length := by rwa [hzl] at hrz
    rw [List.getElem_zip] at heq
    have hsi : (sortedIdxOf l).getD r 0 = ib.1 := by
      rw [getD_lt _ _ (by rw [hsl]; exact hr)]
      exact congrArg Prod.fst heq
    have hms : (removeMaskOf e l p).getD r false = ib.2 := by
      rw [getD_lt _ _ (by rw [hml]; exact hr)]
      exact congrArg Prod.snd heq
    by_cases hb : ib.2 = true
    · rw [if_pos hb] at hif
      refine ⟨r, hr, ?_, ?_⟩
      · rw [hsi, Option.some.inj hif]
      · rw [hms, hb]
    · rw [if_neg hb] at hif
      exact absurd hif (by simp)
  · rintro ⟨r, hr, hj, hmask⟩
    have hrz : r < ((sortedIdxOf l).zip (removeMaskOf e l p)).length := by
      rw [hzl]; exact hr
    refine ⟨((sortedIdxOf l).zip (removeMaskOf e l p)).get ⟨r, hrz⟩,
      List.get_mem _ _ hrz, ?_⟩
    have hget : ((sortedIdxOf l).zip (removeMaskOf e l p)).get ⟨r, hrz⟩ =
        ((sortedIdxOf l).getD r 0, (removeMaskOf e l p).getD r false) := by
      rw [List.get_eq_getElem, List.getElem_zip, getD_lt _ _ (by rw [hsl]; exact hr),
        getD_lt _ _ (by rw [hml]; exact hr)]
    rw [hget]
    simp only [hmask, hj]
    rfl

lemma topPPass_length (e : ℚ → ℚ) (l : List ℚ) (p fv : ℚ) :
    (topPPass e l p fv).length = l.length := by
  simp [topPPass]

lemma topPPass_getD (e : ℚ → ℚ) (l : List ℚ) (p fv : ℚ) {j : ℕ}
    (hj : j < l.length) :
    (topPPass e l p fv).getD j 0 =
      if j ∈ removeIdxOf e l p then fv else l.getD j 0 := by
  have hj' : j < (topPPass e l p fv).length := by rw [topPPass_length]; exact hj
  rw [getD_lt _ _ hj']
  simp [topPPass]

/-- C7: for top_p > 0 (and top_k = 0), nucleus filtering keeps exactly the
sorted positions up to and including the first one whose cumulative softmax
probability exceeds top_p and writes the filter value at every sorted
position after it; position 0 of the descending sort — a maximal logit —
is always kept unchanged, so at least one token survives. -/
theorem nucleus_filter_char (e : ℚ → ℚ) (he : ∀ x, 0 < e x) (l : List ℚ)
    (p fv : ℚ) (hp : 0 < p) (hl : l ≠ []) :
    (∀ r, r < l.length →
        (top_k_top_p_filtering e l 0 p fv).getD ((sortedIdxOf l).getD r 0) 0 =
          if ∀ r', r' < r → (cumProbsOf e l).getD r' 0 ≤ p then
            l.getD ((sortedIdxOf l).getD r 0) 0
          else fv)
    ∧ (top_k_top_p_filtering e l 0 p fv).getD ((sortedIdxOf l).getD 0 0) 0 ∈ l
    ∧ ∀ x ∈ l,
        x ≤ (top_k_top_p_filtering e l 0 p fv).getD ((sortedIdxOf l).getD 0 0) 0 := by
  have hout : top_k_top_p_filtering e l 0 p fv = topPPass e l p fv := by
    simp [top_k_top_p_filtering, hp]
  have hn : 0 < l.length := List.length_pos.2 hl
  have main : ∀ r, r < l.length →
      (top_k_top_p_filtering e l 0 p fv).getD ((sortedIdxOf l).getD r 0) 0 =
        if ∀ r', r' < r → (cumProbsOf e l).getD r' 0 ≤ p then
          l.getD ((sortedIdxOf l).getD r 0) 0
        else fv := by
    intro r hr
    have hjlt : (sortedIdxOf l).getD r 0 < l.length := sortedIdxOf_getD_lt l hr
    rw [hout, topPPass_getD e l p fv hjlt]
    have hmem : (sortedIdxOf l).getD r 0 ∈ removeIdxOf e l p ↔
        (removeMaskOf e l p).getD r false = true := by
      rw [mem_removeIdxOf]
      constructor
      · rintro ⟨r2, hr2, heq, hm⟩
        have hr2' : r2 < (sortedIdxOf l).length := by rw [sortedIdxOf_length]; exact hr2
        have hr' : r < (sortedIdxOf l).length := by rw [sortedIdxOf_length]; exact hr
        rw [getD_lt _ _ hr2', getD_lt _ _ hr'] at heq
        have : r2 = r := ((sortedIdxOf_nodup l).getElem_inj_iff).1 heq
        subst this
        exact hm
      · intro hm
        exact ⟨r, hr, rfl, hm⟩
    by_cases hkeep : ∀ r', r' < r → (cumProbsOf e l).getD r' 0 ≤ p
    · have hno : ¬ (sortedIdxOf l).getD r 0 ∈ removeIdxOf e l p := by
        rw [hmem, removeMask_true_iff e he l p hr]
        exact not_not_intro hkeep
      rw [if_neg hno, if_pos hkeep]
    · have hyes : (sortedIdxOf l).getD r 0 ∈ removeIdxOf e l p :=
        hmem.2 ((removeMask_true_iff e he l p hr).2 hkeep)
      rw [if_pos hyes, if_neg hkeep]
  have hkeep0 : ∀ r', r' < 0 → (cumProbsOf e l).getD r' 0 ≤ p := by
    intro r' hr'
    exact absurd hr' (Nat.not_lt_zero r')
  have h0 := main 0 hn
  rw [if_pos hkeep0] at h0
  refine ⟨main, ?_, ?_⟩
  · rw [h0]
    have hlt := sortedIdxOf_getD_lt l hn
    rw [getD_lt _ _ hlt]
    exact List.getElem_mem hlt
  · intro x hx
    rw [h0]
    obtain ⟨i, hi, rfl⟩ := List.getElem_of_mem hx
    obtain ⟨rx, hrx, hrxeq⟩ := List.getElem_of_mem ((mem_sortedIdxOf l).2 hi)
    have hrxl : rx < l.length := by rw [← sortedIdxOf_length l]; exact hrx
    have hgetd : (sortedIdxOf l).getD rx 0 = i := by
      rw [getD_lt _ _ hrx]; exact hrxeq
    have hvals : (sortedValsOf l).getD rx 0 = l.getD i 0 := by
      rw [sortedValsOf_getD l hrxl, hgetd]
    have hvals0 : (sortedValsOf l).getD 0 0 = l.getD ((sortedIdxOf l).getD 0 0) 0 :=
      sortedValsOf_getD l hn
    have hle : (sortedValsOf l).getD rx 0 ≤ (sortedValsOf l).getD 0 0 :=
      sorted_getD_le (sortedValsOf l) (sortedValsOf_sorted l) (Nat.zero_le rx)
        (by rw [sortedValsOf_length]; exact hrxl)
    calc l[i] = l.getD i 0 := (getD_lt l 0 hi).symm
      _ = (sortedValsOf l).getD rx 0 := hvals.symm
      _ ≤ (sortedValsOf l).getD 0 0 := hle
      _ = l.getD ((sortedIdxOf l).getD 0 0) 0 := hvals0

/-- Witness for `nucleus_filter_char` at e = const 1, l = [2, 1], p = 1/2,
fv = -5. -/
theorem nucleus_filter_char_witness :
    (∀ x : ℚ, 0 < (fun _ : ℚ => (1 : ℚ)) x) ∧ (0 : ℚ) < 1 / 2 ∧
      ([2, 1] : List ℚ) ≠ [] ∧
      ((∀ r, r < ([2, 1] : List ℚ).length →
          (top_k_top_p_filtering (fun _ => 1) [2, 1] 0 (1 / 2) (-5)).getD
              ((sortedIdxOf [2, 1]).getD r 0) 0 =
            if ∀ r', r' < r →
                (cumProbsOf (fun _ => 1) [2, 1]).getD r' 0 ≤ 1 / 2 then
              ([2, 1] : List ℚ).getD ((sortedIdxOf [2, 1]).getD r 0) 0
            else (-5))
      ∧ (top_k_top_p_filtering (fun _ => 1) [2, 1] 0 (1 / 2) (-5)).getD
            ((sortedIdxOf [2, 1]).getD 0 0) 0 ∈ ([2, 1] : List ℚ)
      ∧ ∀ x ∈ ([2, 1] : List ℚ),
          x ≤ (top_k_top_p_filtering (fun _ => 1) [2, 1] 0 (1 / 2) (-5)).getD
                ((sortedIdxOf [2, 1]).getD 0 0) 0) :=
  ⟨fun _ => one_pos, by norm_num, by simp,
    nucleus_filter_char (fun _ => 1) (fun _ => one_pos) [2, 1] (1 / 2) (-5)
      (by norm_num) (by simp)⟩

/-- C8: calling the filter with top_k = 0 and top_p = 0 is the identity on
the logits vector. -/
theorem filter_zero_zero_id (e : ℚ → ℚ) (l : List ℚ) (fv : ℚ) :
    top_k_top_p_filtering e l 0 0 fv = l := by
  simp [top_k_top_p_filtering]

lemma getD_set_self {α : Type} (l : List α) (t : ℕ) (a d : α) (h : t < l.length) :
    (l.set t a).getD t d = a := by
  rw [getD_lt _ _ (by rw [List.length_set]; exact h)]
  simp

lemma set_getD_self {α : Type} (l : List α) (t : ℕ) (d : α) (h : t < l.length) :
    l.set t (l.getD t d) = l := by
  apply List.ext_getElem (by simp)
  intro i h1 h2
  rw [List.getElem_set]
  by_cases hit : t = i
  · subst hit
    rw [if_pos rfl, getD_lt _ _ h]
  · rw [if_neg hit]

/-- C10: the store-passing filter returns the very reference it was given,
and the store cell behind that reference afterwards holds the filtered
vector — the caller's tensor is overwritten in place, no fresh copy is
allocated. -/
theorem filter_inplace_aliasing (e : ℚ → ℚ) (σ : List (List ℚ)) (t : ℕ)
    (top_k : ℕ) (top_p fv : ℚ) (h : 0 < top_k ∨ 0 < top_p) (ht : t < σ.length) :
    (top_k_top_p_filtering_inplace e σ t top_k top_p fv).2 = t
    ∧ (top_k_top_p_filtering_inplace e σ t top_k top_p fv).1 =
        σ.set t (top_k_top_p_filtering e (σ.getD t []) top_k top_p fv) := by
  refine ⟨rfl, ?_⟩
  simp only [top_k_top_p_filtering_inplace, top_k_top_p_filtering]
  by_cases hk : 0 < min top_k (σ.getD t []).length
  · by_cases hp : 0 < top_p
    · simp only [if_pos hk, if_pos hp]
      rw [getD_set_self σ t _ [] ht, List.set_set]
    · simp only [if_pos hk, if_neg hp]
  · by_cases hp : 0 < top_p
    · simp only [if_neg hk, if_pos hp]
    · simp only [if_neg hk, if_neg hp]
      exact (set_getD_self σ t [] ht).symm

/-- Witness for `filter_inplace_aliasing` at σ = [[3, 1]], t = 0, top_k = 1,
top_p = 0, fv = -7. -/
theorem filter_inplace_aliasing_witness :
    ((0 : ℕ) < 1 ∨ (0 : ℚ) < 0) ∧ (0 : ℕ) < ([[3, 1]] : List (List ℚ)).length ∧
      ((top_k_top_p_filtering_inplace constOneExp [[3, 1]] 0 1 0 (-7)).2 = 0
      ∧ (top_k_top_p_filtering_inplace constOneExp [[3, 1]] 0 1 0 (-7)).1 =
          ([[3, 1]] : List (List ℚ)).set 0
            (top_k_top_p_filtering constOneExp (([[3, 1]] : List (List ℚ)).getD 0 [])
              1 0 (-7))) :=
  ⟨Or.inl Nat.one_pos, by simp,
    filter_inplace_aliasing constOneExp [[3, 1]] 0 1 0 (-7) (Or.inl Nat.one_pos)
      (by simp)⟩

lemma buildStepInput_singleton_isSome (is_xlnet : Bool)
    (comet : Option (List (List (List ℕ)) × List (List (List ℚ))))
    (row : List ℕ) : ∃ si, buildStepInput is_xlnet comet [row] = some si := by
  cases is_xlnet with
  | true =>
    refine ⟨StepInput.mk [row ++ [0]] none none
      (some [List.replicate (row ++ [0]).length (lastOneRow (row ++ [0]).length)])
      (some [[lastOneRow (row ++ [0]).length]]), ?_⟩
    simp [buildStepInput, torchCatDim1]
  | false =>
    cases comet with
    | none => exact ⟨_, rfl⟩
    | some c => exact ⟨_, rfl⟩

lemma genStep_singleton (e : ℚ → ℚ) (mult : ℕ → List ℚ → ℕ → List ℕ)
    (model : StepInput → List (List (List ℚ))) (temperature : ℚ) (top_k : ℕ)
    (top_p fv : ℚ) (is_xlnet : Bool)
    (comet : Option (List (List (List ℕ)) × List (List (List ℚ))))
    (hm : ∀ s d, (mult s d 1).length = 1) (step : ℕ) (row : List ℕ) :
    ∃ t, genStep e mult model 1 temperature top_k top_p fv is_xlnet comet step [row] =
        some [row ++ t] ∧ t.length = 1 := by
  obtain ⟨si, hsi⟩ := buildStepInput_singleton_isSome is_xlnet comet row
  refine ⟨mult step (drawDist e temperature top_k top_p fv model si) (1 : ℤ).toNat,
    ?_, by simpa using hm step _⟩
  simp [genStep, hsi, torchCatDim1]

lemma sampleLoop_singleton (e : ℚ → ℚ) (mult : ℕ → List ℚ → ℕ → List ℕ)
    (model : StepInput → List (List (List ℚ))) (temperature : ℚ) (top_k : ℕ)
    (top_p fv : ℚ) (is_xlnet : Bool)
    (comet : Option (List (List (List ℕ)) × List (List (List ℚ))))
    (hm : ∀ s d, (mult s d 1).length = 1) :
    ∀ (steps : List ℕ) (row : List ℕ),
      ∃ row', steps.foldlM
          (fun g step =>
            genStep e mult model 1 temperature top_k top_p fv is_xlnet comet step g)
          [row] = some [row']
        ∧ row'.length = row.length + steps.length := by
  intro steps
  induction steps with
  | nil => exact fun row => ⟨row, rfl, by simp⟩
  | cons s ss ih =>
    intro row
    obtain ⟨t, hstep, htlen⟩ :=
      genStep_singleton e mult model temperature top_k top_p fv is_xlnet comet hm s row
    obtain ⟨row', hloop, hlen⟩ := ih (row ++ t)
    refine ⟨row', ?_, ?_⟩
    · rw [List.foldlM_cons, hstep]
      simpa using hloop
    · rw [hlen, List.length_append, htlen, List.length_cons]
      omega

lemma genStep_fails_of_many (e : ℚ → ℚ) (mult : ℕ → List ℚ → ℕ → List ℕ)
    (model : StepInput → List (List (List ℚ))) (n : ℤ) (temperature : ℚ)
    (top_k : ℕ) (top_p fv : ℚ) (is_xlnet : Bool)
    (comet : Option (List (List (List ℕ)) × List (List (List ℚ)))) (step : ℕ)
    (g : List (List ℕ)) (hg : g.length ≠ 1) :
    genStep e mult model n temperature top_k top_p fv is_xlnet comet step g = none := by
  have hcat : ∀ nt : List ℕ, torchCatDim1 g [nt] = none := by
    intro nt
    simp [torchCatDim1, hg]
  cases is_xlnet with
  | true =>
    have hbuild : torchCatDim1 g [[0]] = none := hcat [0]
    simp [genStep, buildStepInput, hbuild]
  | false =>
    cases comet with
    | none => simp [genStep, buildStepInput, hcat]
    | some c => simp [genStep, buildStepInput, hcat]

/-- C1 (amended): with num_samples = 1 the sampler runs all `length` steps,
appending one token per step, and returns one finished sequence of length
`context_length + length`; with num_samples ≥ 2 and length ≥ 1 the
sequence-extension `torch.cat` fails on the first step — the batch has
`num_samples` rows while `next_token.unsqueeze(0)` has one row — so the
call raises instead of returning `num_samples` sequences. -/
theorem sample_sequence_lengths (e : ℚ → ℚ) (mult : ℕ → List ℚ → ℕ → List ℕ)
    (model : StepInput → List (List (List ℚ))) (length : ℕ) (context : List ℕ)
    (temperature : ℚ) (top_k : ℕ) (top_p : ℚ) (is_xlnet : Bool) (fv : ℚ)
    (comet_input : Option (List (List ℕ))) (comet_mask : Option (List (List ℚ)))
    (hm : ∀ s d n, (mult s d n).length = n) :
    (∃ row, sample_sequence e mult model length context 1 temperature top_k top_p
          is_xlnet fv comet_input comet_mask = some [row]
        ∧ row.length = context.length + length)
    ∧ ∀ n : ℤ, 2 ≤ n → 1 ≤ length →
        sample_sequence e mult model length context n temperature top_k top_p
          is_xlnet fv comet_input comet_mask = none := by
  constructor
  · obtain ⟨row', hloop, hlen⟩ :=
      sampleLoop_singleton e mult model temperature top_k top_p fv is_xlnet
        (match comet_input with
          | none => none
          | some ci => some ([ci], [comet_mask.getD []]))
        (fun s d => hm s d 1) (List.range length) context
    refine ⟨row', ?_, by rw [hlen, List.length_range]⟩
    cases comet_input with
    | none =>
      simpa [sample_sequence, torchRepeat] using hloop
    | some ci =>
      simpa [sample_sequence, torchRepeat] using hloop
  · intro n hn hlen
    obtain ⟨L, rfl⟩ : ∃ L, length = L + 1 := ⟨length - 1, by omega⟩
    have hn0 : ¬ n < 0 := by omega
    have hnn : (List.replicate n.toNat context).length ≠ 1 := by
      rw [List.length_replicate]
      omega
    have hfirst : ∀ comet, genStep e mult model n temperature top_k top_p fv
        is_xlnet comet 0 (List.replicate n.toNat context) = none := fun comet =>
      genStep_fails_of_many e mult model n temperature top_k top_p fv is_xlnet
        comet 0 _ hnn
    cases comet_input with
    | none =>
      simp [sample_sequence, torchRepeat, hn0, List.range_succ_eq_map,
        List.foldlM_cons, hfirst]
    | some ci =>
      simp [sample_sequence, torchRepeat, hn0, List.range_succ_eq_map,
        List.foldlM_cons, hfirst]

/-- Witness for `sample_sequence_lengths`: concrete oracles, context [5],
length 2. -/
theorem sample_sequence_lengths_witness :
    (∀ s d n, (zeroDraws s d n).length = n) ∧
      ((∃ row, sample_sequence constOneExp zeroDraws constModel1 2 [5] 1 1 0 0
            false (-1000) none none = some [row]
          ∧ row.length = ([5] : List ℕ).length + 2)
      ∧ ∀ n : ℤ, 2 ≤ n → 1 ≤ 2 →
          sample_sequence constOneExp zeroDraws constModel1 2 [5] n 1 0 0
            false (-1000) none none = none) :=
  ⟨fun _ _ n => by simp [zeroDraws],
    sample_sequence_lengths constOneExp zeroDraws constModel1 2 [5] 1 0 0 false
      (-1000) none none (fun _ _ n => by simp [zeroDraws])⟩

/-- Counterexample to C1 as stated: at num_samples = 2, length = 1 the call
returns no sequences at all — the step's concatenation raises. -/
theorem sample_sequence_two_samples_cex :
    sample_sequence constOneExp zeroDraws constModel1 1 [0] 2 1 0 0 false
      (-1000) none none = none := by
  decide

/-- C2 (amended): the sampler's behaviour depends on batch row 0 of the
scoring model's output only — `next_token_logits = outputs[0][0, -1, :]`
builds one shared distribution for the single multinomial call, so two
models agreeing on row 0 generate identically even when their other
per-sample rows differ. -/
theorem sample_sequence_row_zero_only (e : ℚ → ℚ) (mult : ℕ → List ℚ → ℕ → List ℕ)
    (model₁ model₂ : StepInput → List (List (List ℚ)))
    (h : ∀ si, (model₁ si).getD 0 [] = (model₂ si).getD 0 [])
    (length : ℕ) (context : List ℕ) (num_samples : ℤ) (temperature : ℚ)
    (top_k : ℕ) (top_p : ℚ) (is_xlnet : Bool) (fv : ℚ)
    (comet_input : Option (List (List ℕ))) (comet_mask : Option (List (List ℚ))) :
    sample_sequence e mult model₁ length context num_samples temperature top_k
        top_p is_xlnet fv comet_input comet_mask =
      sample_sequence e mult model₂ length context num_samples temperature top_k
        top_p is_xlnet fv comet_input comet_mask := by
  have hdist : ∀ si, drawDist e temperature top_k top_p fv model₁ si =
      drawDist e temperature top_k top_p fv model₂ si := by
    intro si
    unfold drawDist
    rw [h si]
  have hstep : ∀ comet step g,
      genStep e mult model₁ num_samples temperature top_k top_p fv is_xlnet comet
          step g =
        genStep e mult model₂ num_samples temperature top_k top_p fv is_xlnet comet
          step g := by
    intro comet step g
    simp only [genStep, hdist]
  simp only [sample_sequence, hstep]

/-- Witness for `sample_sequence_row_zero_only`: `twoRowModel` and
`rowZeroModel` share batch row 0. -/
theorem sample_sequence_row_zero_only_witness :
    (∀ si, (twoRowModel si).getD 0 [] = (rowZeroModel si).getD 0 []) ∧
      sample_sequence constOneExp zeroDraws twoRowModel 2 [5] 1 1 0 0 false
          (-1000) none none =
        sample_sequence constOneExp zeroDraws rowZeroModel 2 [5] 1 1 0 0 false
          (-1000) none none :=
  ⟨fun _ => rfl,
    sample_sequence_row_zero_only constOneExp zeroDraws twoRowModel rowZeroModel
      (fun _ => rfl) 2 [5] 1 1 0 0 false (-1000) none none⟩

/-- Counterexample to C2 as stated: the distribution actually handed to the
single multinomial call is row 0's, not each sample's own — at a model
whose rows 0 and 1 differ, the used distribution disagrees with sample 1's
own per-row distribution. -/
theorem shared_draw_dist_cex :
    ¬ ∀ j, j < 2 →
        drawDist constOneExp 1 0 0 (-1000) twoRowModel
            (StepInput.mk [[5]] none none none none) =
          perSampleDistSpec constOneExp 1 0 0 (-1000) twoRowModel
            (StepInput.mk [[5]] none none none none) j := by
  intro hall
  have h1 := hall 1 (by norm_num)
  have hd : drawDist constOneExp 1 0 0 (-1000) twoRowModel
      (StepInput.mk [[5]] none none none none) = [1] := by
    simp [drawDist, twoRowModel, top_k_top_p_filtering, softmaxE, constOneExp]
  have hs : perSampleDistSpec constOneExp 1 0 0 (-1000) twoRowModel
      (StepInput.mk [[5]] none none none none) 1 = [1 / 2, 1 / 2] := by
    simp [perSampleDistSpec, twoRowModel, top_k_top_p_filtering, softmaxE, constOneExp]
    norm_num
  rw [hd, hs] at h1
  simp at h1

/-- C3 (amended): `sample_sequence` performs no precondition validation.
The replication `unsqueeze(0).repeat(num_samples, 1)` fails exactly for
negative `num_samples`; `num_samples = 0` replicates into an empty batch,
and with `length = 0` the call returns an empty list of sequences rather
than reporting an error. -/
theorem sample_sequence_no_validation :
    (∀ (n : ℤ) (xs : List ℕ), torchRepeat n xs = none ↔ n < 0)
    ∧ ∀ (e : ℚ → ℚ) (mult : ℕ → List ℚ → ℕ → List ℕ)
        (model : StepInput → List (List (List ℚ))) (context : List ℕ)
        (temperature : ℚ) (top_k : ℕ) (top_p : ℚ) (is_xlnet : Bool) (fv : ℚ)
        (comet_input : Option (List (List ℕ)))
        (comet_mask : Option (List (List ℚ))),
        sample_sequence e mult model 0 context 0 temperature top_k top_p is_xlnet
          fv comet_input comet_mask = some [] := by
  constructor
  · intro n xs
    unfold torchRepeat
    split <;> simp_all
  · intro e mult model context temperature top_k top_p is_xlnet fv ci cm
    cases ci with
    | none => simp [sample_sequence, torchRepeat]
    | some c => simp [sample_sequence, torchRepeat]

/-- Counterexample to C3 as stated: num_samples = 0 violates N ≥ 1, yet the
replication succeeds (empty batch, not an error) and with length = 0 the
whole call returns normally with an empty result instead of failing. -/
theorem sample_sequence_no_validation_cex :
    torchRepeat (0 : ℤ) ([5] : List ℕ) = some [] ∧
      sample_sequence constOneExp zeroDraws constModel1 0 [5] 0 1 0 0 false
        (-1000) none none = some [] := by
  constructor
  · rfl
  · rfl

/-- C4 (amended): supplied auxiliary conditioning is attached unmodified to
the StepInput in causal mode only; the permutation-mode branch re-assigns
the inputs dict and the comet fields are dropped (absent from the
StepInput handed to the scoring model). -/
theorem comet_attachment_modes (generated : List (List ℕ)) (row : List ℕ)
    (ci : List (List (List ℕ))) (cm : List (List (List ℚ))) :
    buildStepInput false (some (ci, cm)) generated =
      some (StepInput.mk generated (some ci) (some cm) none none)
    ∧ buildStepInput true (some (ci, cm)) [row] =
      some (StepInput.mk [row ++ [0]] none none
        (some [List.replicate (row.length + 1) (lastOneRow (row.length + 1))])
        (some [[lastOneRow (row.length + 1)]])) := by
  constructor
  · rfl
  · simp [buildStepInput, torchCatDim1]

/-- Counterexample to C4 as stated: in permutation (is_xlnet) mode the
supplied conditioning ([[[7]]], [[[1]]]) is not attached — the StepInput's
comet fields are none. -/
theorem comet_dropped_in_xlnet_cex :
    buildStepInput true (some ([[[7]]], [[[1]]])) [[5]] =
      some (StepInput.mk [[5, 0]] none none (some [[[0, 1], [0, 1]]])
        (some [[[0, 1]]]))
    ∧ (none : Option (List (List (List ℕ)))) ≠ some [[[7]]] := by
  constructor
  · rfl
  · simp

/-- C9: in permutation mode the StepInput appends exactly one placeholder
token (id 0) to the length-L sequence; the visibility mask is an
(L+1)×(L+1) matrix every row of which has exactly one masked cell, in the
placeholder column, all other cells unrestricted; and the target map is a
1×(L+1) row that is all zero except a single 1 at the placeholder
position. -/
theorem xlnet_step_input_shape (row : List ℕ)
    (comet : Option (List (List (List ℕ)) × List (List (List ℚ)))) :
    buildStepInput true comet [row] =
      some (StepInput.mk [row ++ [0]] none none
        (some [List.replicate (row.length + 1) (lastOneRow (row.length + 1))])
        (some [[lastOneRow (row.length + 1)]]))
    ∧ (row ++ [0]).length = row.length + 1
    ∧ (lastOneRow (row.length + 1)).length = row.length + 1
    ∧ (lastOneRow (row.length + 1)).count 1 = 1
    ∧ (lastOneRow (row.length + 1)).getD row.length 0 = 1
    ∧ ∀ j, j < row.length → (lastOneRow (row.length + 1)).getD j 0 = 0 := by
  refine ⟨?_, by simp, ?_, ?_, ?_, ?_⟩
  · simp [buildStepInput, torchCatDim1]
  · simp [lastOneRow]
  · simp [lastOneRow, List.count_append, List.count_replicate]
  · have hlen : row.length < (lastOneRow (row.length + 1)).length := by
      simp [lastOneRow]
    rw [getD_lt _ _ hlen]
    simp only [lastOneRow]
    rw [List.getElem_append_right (by simp)]
    simp
  · intro j hj
    have hlen : j < (lastOneRow (row.length + 1)).length := by
      simp [lastOneRow]
      omega
    rw [getD_lt _ _ hlen]
    simp only [lastOneRow]
    rw [List.getElem_append_left (by simpa using hj)]
    simp

lemma computeScores_error (pre : List (Except String (List (String × ℚ))))
    (hpre : ∀ r ∈ pre, ∃ v, r = Except.ok v)
    (post : List (Except String (List (String × ℚ)))) (msg : String) :
    computeScores (pre ++ Except.error msg :: post) = Except.error msg := by
  induction pre with
  | nil => rfl
  | cons r rs ih =>
    obtain ⟨v, rfl⟩ := hpre r (by simp)
    have htail := ih fun r' hr' => hpre r' (by simp [hr'])
    simp [computeScores, htail, Except.bind, Except.map]

lemma computeScores_ok (rs : List (Except String (List (String × ℚ))))
    (hrs : ∀ r ∈ rs, ∃ v, r = Except.ok v) :
    ∃ d, computeScores rs = Except.ok d := by
  induction rs with
  | nil => exact ⟨[], rfl⟩
  | cons r rest ih =>
    obtain ⟨v, rfl⟩ := hrs r (by simp)
    obtain ⟨d, hd⟩ := ih fun r' hr' => hrs r' (by simp [hr'])
    exact ⟨v ++ d, by simp [computeScores, hd, Except.bind, Except.map]⟩

/-- C5 (amended): the scorers run strictly in sequence with no exception
handling — the first scorer failure propagates out of `evaluate`, the
remaining scorers never run, and nothing is appended to the results file;
a results line (with every metric) is written only when all scorers
succeed. -/
theorem evaluate_fail_fast (mk : String)
    (pre post : List (Except String (List (String × ℚ)))) (msg : String)
    (hpre : ∀ r ∈ pre, ∃ v, r = Except.ok v) :
    (QGEvalCap_evaluate mk (pre ++ Except.error msg :: post) = Except.error msg
    ∧ resultsFileLines mk (pre ++ Except.error msg :: post) = [])
    ∧ ∀ rs : List (Except String (List (String × ℚ))),
        (∀ r ∈ rs, ∃ v, r = Except.ok v) →
        ∃ d, QGEvalCap_evaluate mk rs = Except.ok (mk, d)
          ∧ resultsFileLines mk rs = [(mk, d)] := by
  have herr := computeScores_error pre hpre post msg
  refine ⟨⟨?_, ?_⟩, ?_⟩
  · simp [QGEvalCap_evaluate, herr, Except.map]
  · simp [resultsFileLines, QGEvalCap_evaluate, herr, Except.map]
  · intro rs hrs
    obtain ⟨d, hd⟩ := computeScores_ok rs hrs
    exact ⟨d, by simp [QGEvalCap_evaluate, hd, Except.map],
      by simp [resultsFileLines, QGEvalCap_evaluate, hd, Except.map]⟩

/-- Witness for `evaluate_fail_fast`: one succeeding scorer before the
failing one. -/
theorem evaluate_fail_fast_witness :
    (∀ r ∈ ([Except.ok [("Bleu_1", (1 : ℚ))]] :
        List (Except String (List (String × ℚ)))), ∃ v, r = Except.ok v) ∧
      ((QGEvalCap_evaluate "gpt2_for_anli"
            ([Except.ok [("Bleu_1", (1 : ℚ))]] ++
              Except.error "meteor failed" :: [Except.ok [("ROUGE_L", 2)]]) =
          Except.error "meteor failed"
      ∧ resultsFileLines "gpt2_for_anli"
            ([Except.ok [("Bleu_1", (1 : ℚ))]] ++
              Except.error "meteor failed" :: [Except.ok [("ROUGE_L", 2)]]) = [])
      ∧ ∀ rs : List (Except String (List (String × ℚ))),
          (∀ r ∈ rs, ∃ v, r = Except.ok v) →
          ∃ d, QGEvalCap_evaluate "gpt2_for_anli" rs = Except.ok ("gpt2_for_anli", d)
            ∧ resultsFileLines "gpt2_for_anli" rs = [("gpt2_for_anli", d)]) :=
  ⟨fun r hr => ⟨[("Bleu_1", (1 : ℚ))], by simpa using hr⟩,
    evaluate_fail_fast "gpt2_for_anli" [Except.ok [("Bleu_1", (1 : ℚ))]]
      [Except.ok [("ROUGE_L", 2)]] "meteor failed"
      (fun r hr => ⟨[("Bleu_1", (1 : ℚ))], by simpa using hr⟩)⟩

/-- Counterexample to C5 as stated: with a failing scorer between two
succeeding ones, evaluate raises and the results file receives nothing —
the succeeded metrics are not written. -/
theorem evaluate_fail_fast_cex :
    QGEvalCap_evaluate "gpt2_for_anli"
        [Except.ok [("Bleu_1", (1 : ℚ))], Except.error "meteor failed",
          Except.ok [("ROUGE_L", 2)]] = Except.error "meteor failed"
    ∧ resultsFileLines "gpt2_for_anli"
        [Except.ok [("Bleu_1", (1 : ℚ))], Except.error "meteor failed",
          Except.ok [("ROUGE_L", 2)]] = [] := by
  constructor
  · rfl
  · rfl
